import Mathlib

/-!
Verification development for the AirCut backend (`src/backend/main.py`).

The Python source is shallowly embedded here:

* 2D points are pairs of real numbers; Python floats are modelled as reals.
* `SimpleGestureRecognizer.normalize_trajectory`, `resample_trajectory`,
  `calculate_similarity` and `recognize_gesture` become pure functions on
  `List Point`; index-based loops become structural recursion over the
  list suffix that the loop's cursor points at.
* `HighPerformanceCameraManager.process_frame` becomes a pure state
  transformer on an explicit `CamState`; the external detector capability
  and image codec are modelled by passing their outcomes (`Except`/
  `Option` values) as arguments, and wall-clock readings as real-valued
  arguments.
* The two WebSocket handler loops become step functions from
  (state, inbound message) to (list of outbound messages, new state).
-/

namespace AirCut

noncomputable section

/-- A 2D point `(x, y)`, as produced by the frontend trajectory capture. -/
abbrev Point := ℝ × ℝ

/-- Euclidean distance between two points, as computed in the source by
`(dx * dx + dy * dy) ** 0.5` with `dx = q.x - p.x`, `dy = q.y - p.y`. -/
def ptDist (p q : Point) : ℝ :=
  Real.sqrt ((q.1 - p.1) * (q.1 - p.1) + (q.2 - p.2) * (q.2 - p.2))

/-- Total polyline length of a trajectory: the `total_length` accumulation
loop of `resample_trajectory` (main.py lines 183-187). -/
def pathLength : List Point → ℝ
  | [] => 0
  | [_] => 0
  | p :: q :: rest => ptDist p q + pathLength (q :: rest)

/-- The inner `while` loop of `resample_trajectory` (main.py lines
203-221).  The Python loop walks `current_point_idx` forward through the
fixed trajectory; here the suffix `trajectory[current_point_idx:]` is
passed explicitly, so the loop condition `current_point_idx <
len(trajectory) - 1` becomes "the suffix has at least two points".
Returns the interpolated point (if the loop hit its `break`, i.e. found
the containing segment) together with the suffix and accumulated distance
left for the next outer iteration. -/
def walk : List Point → ℝ → ℝ → Option Point × List Point × ℝ
  | [], cur, _ => (none, [], cur)
  | [p], cur, _ => (none, [p], cur)
  | p :: q :: rest, cur, target =>
    if cur < target then
      if target ≤ cur + ptDist p q then
        (some (if 0 < ptDist p q then
                (p.1 + (q.1 - p.1) * ((target - cur) / ptDist p q),
                 p.2 + (q.2 - p.2) * ((target - cur) / ptDist p q))
              else p),
         p :: q :: rest, cur)
      else walk (q :: rest) (cur + ptDist p q) target
    else (none, p :: q :: rest, cur)

/-- The outer `for i in range(1, target_count - 1)` loop of
`resample_trajectory` (main.py lines 199-221): `n` iterations remain, the
current index is `i`, and the walking state (`current_point_idx` as a
suffix, `current_distance`) is threaded through. -/
def resampleAux (tD : ℝ) : ℕ → ℕ → List Point → ℝ → List Point
  | _, 0, _, _ => []
  | i, Nat.succ n, l, cur =>
    ((walk l cur (i * tD)).1).toList
      ++ resampleAux tD (i + 1) n (walk l cur (i * tD)).2.1 (walk l cur (i * tD)).2.2

/-- Embedding of `SimpleGestureRecognizer.resample_trajectory` (main.py
lines 174-224). -/
def resample_trajectory (trajectory : List Point) (target_count : ℕ) : List Point :=
  if trajectory.length ≤ 1 ∨ target_count ≤ 1 then trajectory
  else if trajectory.length = target_count then trajectory
  else if pathLength trajectory = 0 then trajectory
  else
    trajectory.headI
      :: resampleAux (pathLength trajectory / ((target_count - 1 : ℕ) : ℝ))
           1 (target_count - 2) trajectory 0
      ++ [trajectory.getLastD (0, 0)]

/-- Modelled from the spec (section 4.2): the point at arc length `s`
along the polyline, "placed at equal arc-length increments along the
polyline connecting the original points, using linear interpolation
within the containing segment".  Zero-length segments are skipped when
`s` lies strictly beyond them; division by a zero segment length yields
the segment's start point (Lean's `x / 0 = 0`). -/
def pointAtArc : List Point → ℝ → Point
  | [] , _ => (0, 0)
  | [p], _ => p
  | p :: q :: rest, s =>
    if s ≤ ptDist p q then
      (p.1 + (q.1 - p.1) * (s / ptDist p q), p.2 + (q.2 - p.2) * (s / ptDist p q))
    else pointAtArc (q :: rest) (s - ptDist p q)

/-- Python's `min` over a nonempty list (`min(xs)` in
`normalize_trajectory`); the empty case is never reached by the source
(it guards on `len < 2`) and is given the junk value 0. -/
def listMin : List ℝ → ℝ
  | [] => 0
  | x :: xs => xs.foldl min x

/-- Python's `max` over a nonempty list (`max(xs)`). -/
def listMax : List ℝ → ℝ
  | [] => 0
  | x :: xs => xs.foldl max x

/-- Embedding of `SimpleGestureRecognizer.normalize_trajectory` (main.py
lines 71-105).
Points are modelled as pairs throughout, so the source's dict/list
conversion loop (which maps well-formed points to themselves and is
exercised only with well-formed points) is the identity here. -/
def normalize_trajectory (trajectory : List Point) : List Point :=
  if trajectory.length < 2 then trajectory
  else
    let min_x := listMin (trajectory.map Prod.fst)
    let max_x := listMax (trajectory.map Prod.fst)
    let min_y := listMin (trajectory.map Prod.snd)
    let max_y := listMax (trajectory.map Prod.snd)
    let width := if min_x < max_x then max_x - min_x else 1
    let height := if min_y < max_y then max_y - min_y else 1
    trajectory.map (fun p => ((p.1 - min_x) / width, (p.2 - min_y) / height))

/-- Embedding of `SimpleGestureRecognizer.calculate_similarity` (main.py
lines 145-172).  The accumulation loop `for i in range(len(resampled1))` reads
`resampled1[i]` and `resampled2[i]` with `dx = resampled1[i][0] -
resampled2[i][0]`; indexing is modelled with `getD` and a junk default
(in the source's uses both resampled lists have equal length, so the
default is never taken).  The divisor is the source's literal `1.414`. -/
def calculate_similarity (trajectory1 trajectory2 : List Point) : ℝ :=
  if trajectory1 = [] ∨ trajectory2 = [] then 0
  else
    let target_points := min 50 (max trajectory1.length trajectory2.length)
    let resampled1 := resample_trajectory trajectory1 target_points
    let resampled2 := resample_trajectory trajectory2 target_points
    let total_distance := ((List.range resampled1.length).map
      (fun i => ptDist (resampled2.getD i (0, 0)) (resampled1.getD i (0, 0)))).sum
    let avg_distance := total_distance / resampled1.length
    max 0 (1 - avg_distance / 1.414)

/-- Modelled from the spec (section 4.3 step 3): "resample both ... to
the same point count min(50, max(len(input), len(template))), then
compute the mean Euclidean distance between corresponding resampled
points, and convert to similarity via max(0, 1 - meanDistance /
sqrt(2))".  The divisor is a parameter `c` so that the spec's `sqrt 2`
and the source's literal `1.414` can be compared. -/
def similaritySpec (c : ℝ) (t1 t2 : List Point) : ℝ :=
  let K := min 50 (max t1.length t2.length)
  let mean := (List.zipWith ptDist (resample_trajectory t1 K) (resample_trajectory t2 K)).sum
    / (K : ℝ)
  max 0 (1 - mean / c)

/-- A stored template, as assembled by `add_template` (main.py lines
58-69): identifier, display name, and (normalized) trajectory. -/
structure Template where
  template_id : String
  name : String
  trajectory : List Point

/-- The recognizer's best-match record (main.py lines 131-136); the
source stores the similarity under both `similarity` and `confidence`. -/
structure MatchResult where
  template_id : String
  name : String
  similarity : ℝ
  confidence : ℝ

/-- The template loop of `recognize_gesture` (main.py lines 120-136):
iterate over templates in insertion order, replacing the current best
only when `similarity > best_similarity and similarity >=
confidence_threshold`, starting from `best_match = None`,
`best_similarity = 0.0`. -/
def bestLoop (normalized_input : List Point) (confidence_threshold : ℝ) :
    List Template → Option MatchResult → ℝ → Option MatchResult
  | [], best_match, _ => best_match
  | t :: ts, best_match, best_similarity =>
    if best_similarity < calculate_similarity normalized_input t.trajectory
        ∧ confidence_threshold ≤ calculate_similarity normalized_input t.trajectory then
      bestLoop normalized_input confidence_threshold ts
        (some ⟨t.template_id, t.name,
          calculate_similarity normalized_input t.trajectory,
          calculate_similarity normalized_input t.trajectory⟩)
        (calculate_similarity normalized_input t.trajectory)
    else
      bestLoop normalized_input confidence_threshold ts best_match best_similarity

/-- Embedding of `SimpleGestureRecognizer.recognize_gesture` (main.py
lines 107-143).
`self.templates` is a Python dict iterated in insertion order, passed
here as a list. -/
def recognize_gesture (templates : List Template) (trajectory : List Point)
    (confidence_threshold : ℝ) : Option MatchResult :=
  if trajectory.length < 2 then none
  else if templates.isEmpty then none
  else
    let normalized_input := normalize_trajectory trajectory
    if normalized_input.length < 2 then none
    else bestLoop normalized_input confidence_threshold templates none 0

/-- A raw prediction from the external detector capability, with the
fields `process_frame` reads (`x`, `y`, `width`, `height`, `confidence`,
`class_name`). -/
structure Pred where
  x : ℝ
  y : ℝ
  width : ℝ
  height : ℝ
  confidence : ℝ
  class_name : String
deriving Inhabited

/-- One result object returned by `model.infer`; the source reads
`results[0].predictions` (main.py lines 279-281). -/
structure InferResult where
  predictions : List Pred
deriving Inhabited

/-- The detection record built by `process_frame` (main.py lines
292-299); the Python dict key `class` is rendered `cls`. -/
structure Detection where
  x : ℝ
  y : ℝ
  width : ℝ
  height : ℝ
  confidence : ℝ
  cls : String

/-- A decoded image; the pipeline consumes only its shape
`(height, width)` (main.py line 271), resizing being delegated to the
external codec. -/
structure Image where
  height : ℝ
  width : ℝ

/-- The mutable state of `HighPerformanceCameraManager` (main.py lines
230-249): the tracking flag, the performance counters, the FPS window
origin, the rolling latency window (`deque(maxlen=30)`), the current
detections, the fixed inference size (320), and whether the inference
model loaded (`self.model is not None`). -/
structure CamState where
  tracking_enabled : Bool
  frame_count : ℕ
  detection_count : ℕ
  fps_start_time : ℝ
  detection_times : List ℝ
  current_detections : List Detection
  detection_frame_size : ℝ
  model_loaded : Bool

/-- Embedding of `deque(maxlen=30).append`: when full, the oldest entry
is evicted. -/
def pushLatency (dt : List ℝ) (t : ℝ) : List ℝ :=
  if dt.length < 30 then dt ++ [t] else dt.drop 1 ++ [t]

/-- Python's `max(predictions, key=lambda x: x.confidence)` over a
nonempty list: the first element with maximal confidence wins ties. -/
def maxByConfidence (p : Pred) (ps : List Pred) : Pred :=
  ps.foldl (fun acc q => if acc.confidence < q.confidence then q else acc) p

/-- Embedding of `HighPerformanceCameraManager.process_frame` (main.py
lines 261-326)
as a state transformer.  External effects are passed as arguments: the
decoded `frame` (if any), the outcome of the `model.infer` call on the
resized image (`Except.error` models an exception, caught at line 323),
the measured detection latency `lat` (`time.time() - start_time`), and
the wall-clock reading `now` used by the every-60th-detection diagnostic
block, which resets the FPS window origin and clears the latency
window.  The function is total, so a detector failure cannot propagate
to the caller. -/
def process_frame (s : CamState) (frame : Option Image) (confidence_threshold : ℝ)
    (inferOutcome : Except Unit (List InferResult)) (lat now : ℝ) :
    Option Detection × CamState :=
  if !s.tracking_enabled || !s.model_loaded || frame.isNone then (none, s)
  else
    match frame with
    | none => (none, s)
    | some f =>
      let s1 : CamState := { s with frame_count := s.frame_count + 1 }
      match inferOutcome with
      | .error _ => (none, s1)
      | .ok results =>
        if results.isEmpty then (none, s1)
        else
          if (results.headI.predictions).isEmpty then (none, s1)
          else
            let best_detection := maxByConfidence (results.headI.predictions).headI
              (results.headI.predictions).tail
            if confidence_threshold < best_detection.confidence then
              let scale_x := f.width / s.detection_frame_size
              let scale_y := f.height / s.detection_frame_size
              let detection : Detection :=
                ⟨best_detection.x * scale_x, best_detection.y * scale_y,
                 best_detection.width * scale_x, best_detection.height * scale_y,
                 best_detection.confidence, best_detection.class_name⟩
              let s2 : CamState := { s1 with
                current_detections := [detection],
                detection_count := s1.detection_count + 1,
                detection_times := pushLatency s1.detection_times lat }
              let s3 : CamState :=
                if s2.detection_count % 60 = 0 ∧ 0 < now - s2.fps_start_time then
                  { s2 with fps_start_time := now, detection_times := [] }
                else s2
              (some detection, s3)
            else (none, s1)

/-- The two process-wide confidence scalars (main.py lines 51-52),
mutable at runtime via `update_confidence` messages. -/
structure Globals where
  current_hand_detection_confidence : ℝ
  current_gesture_recognition_confidence : ℝ

/-- Per-connection state of the `/ws/frames` loop (main.py lines
527-528): the frame-skip counter and the fractional "process every Nth
frame" divisor.  The divisor participates in Python float modulo
arithmetic.  The default 0.5 is an exact binary float and is modelled
exactly; the forced-refresh value 0.2 is modelled by the rational 1/5
its source text denotes, whereas the binary float Python stores differs
slightly (making the real modulo gate nonzero for most counters), so no
theorem here is stated about the forced-refresh branch. -/
structure FrameSession where
  frame_skip_counter : ℕ
  process_every_nth_frame : ℚ

/-- Initial per-connection state: counter 0, divisor 0.5 (the source
comments `# Process every 3rd frame`). -/
def initFrameSession : FrameSession := ⟨0, 1/2⟩

/-- Python float modulo `a % b`, namely `a - b * ⌊a / b⌋`. -/
def pyMod (a b : ℚ) : ℚ := a - b * ⌊a / b⌋

/-- Inbound message kinds handled by the `/ws/frames` loop (main.py
lines 550-655); `frame` carries the optional base64 payload
(`message.get("frame") or message.get("data")`), and `other` any
unrecognized kind. -/
inductive FrameMsg where
  | ping
  | refresh_detection (force_process : Bool)
  | update_confidence (hand gesture : Option ℝ)
  | frame (data : Option String)
  | other (t : String)

/-- Outbound messages of the `/ws/frames` loop. -/
inductive FrameOut where
  | connection_established
  | pong
  | detectionMsg (detection : Option Detection)
  | frame_received
  | confidence_updated (hand gesture : ℝ)
  | errorMsg (message : String)

/-- The environment consumed while handling one `frame` message: the
result of base64-decode + `cv2.imdecode` (`none` covers both a decode
exception and `imdecode` returning `None`), the detector outcome, and
the two wall-clock readings used by `process_frame`. -/
structure FrameEnv where
  decoded : Option Image
  inferOutcome : Except Unit (List InferResult)
  lat : ℝ
  now : ℝ

/-- One dispatch step of the `/ws/frames` loop (main.py lines 543-655):
given the process-wide scalars, the shared camera state, the
per-connection session state and the frame environment, produce the
outbound messages (in send order) and the new states.  The `frame`
branch increments the skip counter, always sends `frame_received`, runs
the pipeline only when a payload is present, tracking is enabled and the
skip gate passes, and always sends a `detection` message.  An
unrecognized kind (the final `else`, lines 654-655) only logs a warning
and sends nothing. -/
def frameStreamStep (g : Globals) (cam : CamState) (sess : FrameSession) (env : FrameEnv) :
    FrameMsg → List FrameOut × Globals × CamState × FrameSession
  | .ping => ([.pong], g, cam, sess)
  | .refresh_detection force_process =>
    let cam' := { cam with tracking_enabled := true }
    let sess' := if force_process then { sess with process_every_nth_frame := 1/5 } else sess
    match cam'.current_detections with
    | d :: _ => ([.detectionMsg (some d)], g, cam', sess')
    | [] => ([.detectionMsg none], g, cam', sess')
  | .update_confidence hand gesture =>
    let g' : Globals :=
      { current_hand_detection_confidence :=
          hand.getD g.current_hand_detection_confidence,
        current_gesture_recognition_confidence :=
          gesture.getD g.current_gesture_recognition_confidence }
    ([.confidence_updated g'.current_hand_detection_confidence
        g'.current_gesture_recognition_confidence], g', cam, sess)
  | .frame data =>
    let counter := sess.frame_skip_counter + 1
    let dc : Option Detection × CamState :=
      if data.isSome && cam.tracking_enabled
          && (pyMod (counter : ℚ) sess.process_every_nth_frame == 0) then
        match env.decoded with
        | some f => process_frame cam (some f)
            g.current_hand_detection_confidence env.inferOutcome env.lat env.now
        | none => (none, cam)
      else (none, cam)
    ([.frame_received, .detectionMsg dc.1], g, dc.2,
      { sess with frame_skip_counter := counter })
  | .other _ => ([], g, cam, sess)

/-- A caller-supplied template as carried by a `recognize_gesture`
message (name, raw trajectory, associated command). -/
structure WsTemplate where
  name : String
  trajectory : List Point
  command : String

/-- Inbound message kinds handled by the `/ws` loop (main.py lines
404-513). -/
inductive WsMsg where
  | ping
  | start_tracking
  | stop_tracking
  | save_template
  | recognize_gesture (trajectory : List Point) (confidence_threshold : Option ℝ)
      (templates : List WsTemplate)
  | other (t : String)

/-- Outbound messages of the `/ws` loop. -/
inductive WsOut where
  | pong
  | statusSuccess (message : String)
  | info (message : String)
  | gesture_recognized (template_name : String) (similarity : ℝ) (command : String)
  | gesture_not_recognized (message : String)
  | statusError (message : String)

/-- The temporary recognizer construction (main.py lines 459-470): each
caller-supplied template is added via `add_template`, which normalizes
its trajectory and keys it as `temp_{i}_{name}`, preserving order. -/
def buildTemplates (templates : List WsTemplate) : List Template :=
  templates.enum.map (fun it =>
    ⟨"temp_" ++ toString it.1 ++ "_" ++ it.2.name, it.2.name,
      normalize_trajectory it.2.trajectory⟩)

/-- One dispatch step of the `/ws` loop (main.py lines 397-513).  The
final `else` (lines 509-513) answers an unrecognized kind with an error
status naming the kind; `stop_tracking` also clears the current
detections. -/
def wsStep (g : Globals) (cam : CamState) : WsMsg → List WsOut × CamState
  | .ping => ([.pong], cam)
  | .start_tracking =>
    ([.statusSuccess ("Tracking started")], { cam with tracking_enabled := true })
  | .stop_tracking =>
    ([.statusSuccess ("Tracking stopped")],
      { cam with tracking_enabled := false, current_detections := [] })
  | .save_template =>
    ([.info ("Templates are now stored client-side only. Backend operates stateless.")], cam)
  | .recognize_gesture trajectory confidence_threshold templates =>
    if trajectory.length < 2 then
      ([.gesture_not_recognized ("Trajectory must have at least 2 points")], cam)
    else if templates.isEmpty then
      ([.gesture_not_recognized ("No templates provided for recognition")], cam)
    else
      match recognize_gesture (buildTemplates templates) trajectory
          (confidence_threshold.getD g.current_gesture_recognition_confidence) with
      | some r =>
        ([.gesture_recognized r.name r.confidence
            (match templates.find? (fun t => t.name == r.name) with
              | some t => t.command
              | none => "")], cam)
      | none => ([.gesture_not_recognized ("No matching gesture found")], cam)
  | .other t => ([.statusError ("Unknown message type: " ++ t)], cam)

/-- A concrete template whose similarity against the normalized diagonal
input is exactly 0 (reversed diagonal). -/
def reversedDiagTemplate : Template :=
  { template_id := "t1", name := "A",
    trajectory := [((1 : ℝ), (1 : ℝ)), (0, 0)] }

/-- A concrete template identical to the normalized diagonal input. -/
def diagTemplate : Template :=
  { template_id := "t1", name := "A",
    trajectory := [((0 : ℝ), (0 : ℝ)), (1, 1)] }

/-- A concrete camera state (tracking disabled, model not loaded, all
counters zero) used by witnesses. -/
def sampleCamState : CamState :=
  { tracking_enabled := false, frame_count := 0, detection_count := 0,
    fps_start_time := 0, detection_times := [], current_detections := [],
    detection_frame_size := 320, model_loaded := false }

lemma ptDist_nonneg (p q : Point) : 0 ≤ ptDist p q := Real.sqrt_nonneg _

lemma ptDist_comm (p q : Point) : ptDist p q = ptDist q p := by
  unfold ptDist
  congr 1
  ring

lemma pathLength_nonneg (l : List Point) : 0 ≤ pathLength l := by
  induction l with
  | nil => simp [pathLength]
  | cons p tail ih =>
    cases tail with
    | nil => simp [pathLength]
    | cons q rest =>
      simp only [pathLength]
      have := ptDist_nonneg p q
      have := ih
      linarith [ih]

/-- Correctness of the inner walking loop: provided the walk starts with
its accumulated distance strictly below the target, (a) the accumulated
distance stays below the target, (b) accumulated distance plus remaining
suffix length is preserved, (c) arc-length addressing relative to the new
state agrees with addressing relative to the old state for any arc
position at or beyond the target, and (d) whenever the target lies within
the remaining path, the loop breaks with exactly the spec's interpolated
point. -/
lemma walk_spec (target : ℝ) :
    ∀ (l : List Point) (cur : ℝ), cur < target →
      (walk l cur target).2.2 < target ∧
      (walk l cur target).2.2 + pathLength (walk l cur target).2.1 = cur + pathLength l ∧
      (∀ s, target ≤ s →
        pointAtArc (walk l cur target).2.1 (s - (walk l cur target).2.2)
          = pointAtArc l (s - cur)) ∧
      (target ≤ cur + pathLength l →
        (walk l cur target).1 = some (pointAtArc l (target - cur))) := by
  intro l
  induction l with
  | nil =>
    intro cur h
    refine ⟨h, by simp [walk], by simp [walk], ?_⟩
    intro hle
    simp [pathLength] at hle
    linarith
  | cons p tail ih =>
    cases tail with
    | nil =>
      intro cur h
      refine ⟨h, by simp [walk], by simp [walk], ?_⟩
      intro hle
      simp [pathLength] at hle
      linarith
    | cons q rest =>
      intro cur h
      by_cases hseg : target ≤ cur + ptDist p q
      · -- the containing segment is found; the loop breaks here
        have hw : walk (p :: q :: rest) cur target =
            (some (if 0 < ptDist p q then
                    (p.1 + (q.1 - p.1) * ((target - cur) / ptDist p q),
                     p.2 + (q.2 - p.2) * ((target - cur) / ptDist p q))
                  else p),
             p :: q :: rest, cur) := by
          simp only [walk, if_pos h, if_pos hseg]
        rw [hw]
        refine ⟨h, rfl, fun s _ => rfl, fun _ => ?_⟩
        have hpos : 0 < ptDist p q := by linarith
        have harc : pointAtArc (p :: q :: rest) (target - cur) =
            (p.1 + (q.1 - p.1) * ((target - cur) / ptDist p q),
             p.2 + (q.2 - p.2) * ((target - cur) / ptDist p q)) := by
          simp only [pointAtArc, if_pos (by linarith : target - cur ≤ ptDist p q)]
        simp only [harc, if_pos hpos]
      · -- the segment is fully consumed; the loop advances
        push_neg at hseg
        have hw : walk (p :: q :: rest) cur target =
            walk (q :: rest) (cur + ptDist p q) target := by
          simp only [walk, if_pos h, if_neg (not_le.mpr hseg)]
        have ihh := ih (cur + ptDist p q) hseg
        obtain ⟨ha, hb, hc, hd⟩ := ihh
        have hskip : ∀ s : ℝ, target ≤ s →
            pointAtArc (p :: q :: rest) (s - cur)
              = pointAtArc (q :: rest) (s - (cur + ptDist p q)) := by
          intro s hs
          have : ¬ s - cur ≤ ptDist p q := by linarith
          simp only [pointAtArc, if_neg this]
          congr 1
          ring
        rw [hw]
        refine ⟨ha, ?_, ?_, ?_⟩
        · simp only [pathLength] at *
          linarith
        · intro s hs
          rw [hc s hs, hskip s hs]
        · intro hle
          have hle' : target ≤ (cur + ptDist p q) + pathLength (q :: rest) := by
            simp only [pathLength] at hle
            linarith
          rw [hd hle', hskip target le_rfl]

/-- Correctness of the outer resampling loop: starting from a walking
state `(l, cur)` with `cur` strictly below the first target `i * tD`, and
with every remaining target inside the remaining path, the loop produces
exactly one point per iteration, namely the spec's point at the
corresponding arc-length position (addressed relative to `(l, cur)`). -/
lemma resampleAux_spec (tD : ℝ) (htD : 0 ≤ tD) :
    ∀ (n i : ℕ) (l : List Point) (cur : ℝ),
      cur < i * tD →
      (∀ j : ℕ, j < n → ((i + j : ℕ) : ℝ) * tD ≤ cur + pathLength l) →
      resampleAux tD i n l cur
        = (List.range n).map (fun j => pointAtArc l (((i + j : ℕ) : ℝ) * tD - cur)) := by
  intro n
  induction n with
  | zero => intro i l cur _ _; simp [resampleAux]
  | succ n ih =>
    intro i l cur hcur hbound
    have hfirst : (i : ℝ) * tD ≤ cur + pathLength l := by
      have := hbound 0 (Nat.succ_pos n)
      simpa using this
    obtain ⟨ha, hb, hc, hd⟩ := walk_spec ((i : ℝ) * tD) l cur hcur
    have hmono : ((i : ℝ)) * tD ≤ ((i + 1 : ℕ) : ℝ) * tD := by
      have : ((i : ℝ)) ≤ ((i + 1 : ℕ) : ℝ) := by push_cast; linarith
      exact mul_le_mul_of_nonneg_right this htD
    have hcur' : (walk l cur ((i : ℝ) * tD)).2.2 < ((i + 1 : ℕ) : ℝ) * tD :=
      lt_of_lt_of_le ha hmono
    have hbound' : ∀ j : ℕ, j < n →
        (((i + 1) + j : ℕ) : ℝ) * tD
          ≤ (walk l cur ((i : ℝ) * tD)).2.2 + pathLength (walk l cur ((i : ℝ) * tD)).2.1 := by
      intro j hj
      rw [hb]
      have : ((i + (j + 1) : ℕ) : ℝ) * tD ≤ cur + pathLength l :=
        hbound (j + 1) (Nat.succ_lt_succ hj)
      calc (((i + 1) + j : ℕ) : ℝ) * tD
          = ((i + (j + 1) : ℕ) : ℝ) * tD := by push_cast; ring_nf
        _ ≤ cur + pathLength l := this
    have hrec := ih (i + 1) (walk l cur ((i : ℝ) * tD)).2.1 (walk l cur ((i : ℝ) * tD)).2.2
      (by exact_mod_cast hcur') hbound'
    have hhead : ((walk l cur ((i : ℝ) * tD)).1).toList
        = [pointAtArc l (((i : ℝ)) * tD - cur)] := by
      rw [hd hfirst]; rfl
    have hshift : ∀ j : ℕ, j < n →
        pointAtArc (walk l cur ((i : ℝ) * tD)).2.1
            ((((i + 1) + j : ℕ) : ℝ) * tD - (walk l cur ((i : ℝ) * tD)).2.2)
          = pointAtArc l ((((i + 1) + j : ℕ) : ℝ) * tD - cur) := by
      intro j hj
      apply hc
      have : ((i : ℝ)) ≤ (((i + 1) + j : ℕ) : ℝ) := by push_cast; linarith
      exact mul_le_mul_of_nonneg_right this htD
    have hmapeq : (List.range n).map
          (fun j => pointAtArc (walk l cur ((i : ℝ) * tD)).2.1
            ((((i + 1) + j : ℕ) : ℝ) * tD - (walk l cur ((i : ℝ) * tD)).2.2))
        = (List.range n).map
          (fun j => pointAtArc l ((((i + 1) + j : ℕ) : ℝ) * tD - cur)) := by
      apply List.map_congr_left
      intro j hj
      exact hshift j (List.mem_range.mp hj)
    have hrange : (List.range (n + 1)).map
          (fun j => pointAtArc l (((i + j : ℕ) : ℝ) * tD - cur))
        = pointAtArc l (((i : ℝ)) * tD - cur)
          :: (List.range n).map (fun j => pointAtArc l ((((i + 1) + j : ℕ) : ℝ) * tD - cur)) := by
      rw [List.range_succ_eq_map]
      simp only [List.map_cons, List.map_map]
      refine List.cons_eq_cons.mpr ⟨by norm_num, ?_⟩
      apply List.map_congr_left
      intro j _
      show pointAtArc l (((i + Nat.succ j : ℕ) : ℝ) * tD - cur)
          = pointAtArc l (((i + 1 + j : ℕ) : ℝ) * tD - cur)
      congr 1
      push_cast
      ring
    show ((walk l cur ((i : ℝ) * tD)).1).toList
        ++ resampleAux tD (i + 1) n (walk l cur ((i : ℝ) * tD)).2.1 (walk l cur ((i : ℝ) * tD)).2.2
      = _
    rw [hhead, hrec, hmapeq, hrange]
    simp

/-- The resampler's output as an explicit list, in the genuine resampling
case (at least 2 points, target at least 2, lengths differing, positive
path length). -/
lemma resample_eq (traj : List Point) (K : ℕ)
    (h2 : 2 ≤ traj.length) (hK : 2 ≤ K) (hne : traj.length ≠ K)
    (htot : 0 < pathLength traj) :
    resample_trajectory traj K
      = traj.headI
          :: (List.range (K - 2)).map
              (fun j => pointAtArc traj
                (((1 + j : ℕ) : ℝ) * (pathLength traj / ((K - 1 : ℕ) : ℝ))))
          ++ [traj.getLastD (0, 0)] := by
  have hguard : ¬ (traj.length ≤ 1 ∨ K ≤ 1) := by omega
  have hKpos : (0 : ℝ) < ((K - 1 : ℕ) : ℝ) := by
    have : 1 ≤ K - 1 := by omega
    exact_mod_cast Nat.lt_of_lt_of_le Nat.zero_lt_one this
  have htD : 0 < pathLength traj / ((K - 1 : ℕ) : ℝ) := div_pos htot hKpos
  have hlaux := resampleAux_spec (pathLength traj / ((K - 1 : ℕ) : ℝ)) htD.le
    (K - 2) 1 traj 0 (by simpa using htD)
    (by
      intro j hj
      have hle : ((1 + j : ℕ) : ℝ) ≤ ((K - 1 : ℕ) : ℝ) := by
        have : 1 + j ≤ K - 1 := by omega
        exact_mod_cast this
      calc ((1 + j : ℕ) : ℝ) * (pathLength traj / ((K - 1 : ℕ) : ℝ))
          ≤ ((K - 1 : ℕ) : ℝ) * (pathLength traj / ((K - 1 : ℕ) : ℝ)) :=
            mul_le_mul_of_nonneg_right hle htD.le
        _ = pathLength traj := by
            rw [mul_div_assoc']
            exact mul_div_cancel_left₀ _ (ne_of_gt hKpos)
        _ = 0 + pathLength traj := by ring)
  unfold resample_trajectory
  rw [if_neg hguard, if_neg hne, if_neg (ne_of_gt htot), hlaux]
  simp

/-- Applying `getD` to a mapped range picks out the function value. -/
lemma getD_range_map {α : Type} (f : ℕ → α) (n j : ℕ) (hj : j < n) (d : α) :
    ((List.range n).map f).getD j d = f j := by
  rw [List.getD_eq_getElem?_getD, List.getElem?_map, List.getElem?_range hj]
  rfl

/-- C9: resampling a trajectory to its own current length returns the
input unchanged, as do the degenerate cases of at most one input point or
a target count of at most 1 (the three short-circuits at the top of
`resample_trajectory`). -/
theorem resample_shortcircuit (traj : List Point) (K : ℕ)
    (h : K = traj.length ∨ traj.length ≤ 1 ∨ K ≤ 1) :
    resample_trajectory traj K = traj := by
  unfold resample_trajectory
  rcases h with h | h | h
  · by_cases h1 : traj.length ≤ 1 ∨ K ≤ 1
    · rw [if_pos h1]
    · rw [if_neg h1, if_pos h.symm]
  · rw [if_pos (Or.inl h)]
  · rw [if_pos (Or.inr h)]

theorem resample_shortcircuit_witness :
    ((2 : ℕ) = ([((0 : ℝ), (0 : ℝ)), (1, 1)] : List Point).length
      ∨ ([((0 : ℝ), (0 : ℝ)), (1, 1)] : List Point).length ≤ 1 ∨ (2 : ℕ) ≤ 1)
    ∧ resample_trajectory [((0 : ℝ), (0 : ℝ)), (1, 1)] 2
        = [((0 : ℝ), (0 : ℝ)), (1, 1)] :=
  ⟨Or.inl (by simp), resample_shortcircuit _ 2 (Or.inl (by simp))⟩

/-- C1 (amended): for a trajectory with at least 2 points and strictly
positive path length, and a target count `K ≥ 2` that differs from the
current point count, the resampled trajectory has exactly `K` points, its
first and last points equal the original's, and every interior point `m`
(`1 ≤ m ≤ K-2`) sits at arc length `m · total/(K-1)` along the original
polyline, linearly interpolated within the containing segment.  (When `K`
equals the current length the input is returned unchanged instead — see
the counterexample.) -/
theorem resample_exact_arclength (traj : List Point) (K : ℕ)
    (h2 : 2 ≤ traj.length) (htot : 0 < pathLength traj) (hK : 2 ≤ K)
    (hne : traj.length ≠ K) :
    (resample_trajectory traj K).length = K
    ∧ (resample_trajectory traj K).headI = traj.headI
    ∧ (resample_trajectory traj K).getLastD (0, 0) = traj.getLastD (0, 0)
    ∧ ∀ m : ℕ, 0 < m → m + 1 < K →
        (resample_trajectory traj K).getD m (0, 0)
          = pointAtArc traj ((m : ℝ) * (pathLength traj / ((K : ℝ) - 1))) := by
  have heq := resample_eq traj K h2 hK hne htot
  have hcast : ((K - 1 : ℕ) : ℝ) = (K : ℝ) - 1 := by
    have h1 : 1 ≤ K := by omega
    push_cast [Nat.cast_sub h1]
    ring
  refine ⟨?_, ?_, ?_, ?_⟩
  · rw [heq]
    simp only [List.length_cons, List.length_append, List.length_map,
      List.length_range, List.length_singleton, List.length_nil]
    omega
  · rw [heq]; rfl
  · rw [heq]
    rw [show traj.headI
          :: (List.range (K - 2)).map
              (fun j => pointAtArc traj
                (((1 + j : ℕ) : ℝ) * (pathLength traj / ((K - 1 : ℕ) : ℝ))))
          ++ [traj.getLastD (0, 0)]
        = (traj.headI
            :: (List.range (K - 2)).map
              (fun j => pointAtArc traj
                (((1 + j : ℕ) : ℝ) * (pathLength traj / ((K - 1 : ℕ) : ℝ)))))
          ++ [traj.getLastD (0, 0)] from rfl]
    rw [List.getLastD_concat]
  · intro m hm hmK
    obtain ⟨j, rfl⟩ : ∃ j, m = j + 1 := ⟨m - 1, by omega⟩
    have hj : j < K - 2 := by omega
    rw [heq]
    have hstep : ∀ (x : Point) (t : List Point) (n : ℕ),
        (List.cons x t).getD (n + 1) ((0 : ℝ), (0 : ℝ)) = t.getD n (0, 0) :=
      fun _ _ _ => List.getD_cons_succ
    rw [List.getD_append _ _ _ _ (by simp; omega), hstep, getD_range_map _ _ _ hj, hcast]
    congr 1
    push_cast
    ring

theorem resample_exact_arclength_witness :
    2 ≤ ([((0 : ℝ), (0 : ℝ)), (1, 0)] : List Point).length
    ∧ 0 < pathLength [((0 : ℝ), (0 : ℝ)), (1, 0)]
    ∧ 2 ≤ 3
    ∧ ([((0 : ℝ), (0 : ℝ)), (1, 0)] : List Point).length ≠ 3
    ∧ ((resample_trajectory [((0 : ℝ), (0 : ℝ)), (1, 0)] 3).length = 3
      ∧ (resample_trajectory [((0 : ℝ), (0 : ℝ)), (1, 0)] 3).headI
          = ([((0 : ℝ), (0 : ℝ)), (1, 0)] : List Point).headI
      ∧ (resample_trajectory [((0 : ℝ), (0 : ℝ)), (1, 0)] 3).getLastD (0, 0)
          = ([((0 : ℝ), (0 : ℝ)), (1, 0)] : List Point).getLastD (0, 0)
      ∧ ∀ m : ℕ, 0 < m → m + 1 < 3 →
          (resample_trajectory [((0 : ℝ), (0 : ℝ)), (1, 0)] 3).getD m (0, 0)
            = pointAtArc [((0 : ℝ), (0 : ℝ)), (1, 0)]
                ((m : ℝ) * (pathLength [((0 : ℝ), (0 : ℝ)), (1, 0)] / ((3 : ℝ) - 1)))) := by
  have h2 : 2 ≤ ([((0 : ℝ), (0 : ℝ)), (1, 0)] : List Point).length := by simp
  have hd1w : ptDist ((0 : ℝ), (0 : ℝ)) (1, 0) = 1 := by
    unfold ptDist
    rw [show ((1 : ℝ) - 0) * ((1 : ℝ) - 0) + ((0 : ℝ) - 0) * ((0 : ℝ) - 0) = 1 by norm_num]
    exact Real.sqrt_one
  have htot : 0 < pathLength [((0 : ℝ), (0 : ℝ)), (1, 0)] := by
    have h : pathLength [((0 : ℝ), (0 : ℝ)), (1, 0)] = 1 := by
      simp only [pathLength]
      rw [hd1w]
      norm_num
    rw [h]
    norm_num
  have hne : ([((0 : ℝ), (0 : ℝ)), (1, 0)] : List Point).length ≠ 3 := by simp
  exact ⟨h2, htot, by norm_num, hne,
    resample_exact_arclength [((0 : ℝ), (0 : ℝ)), (1, 0)] 3 h2 htot (by norm_num) hne⟩

/-- C1 counterexample: the claim as stated quantifies over every target
count `K ≥ 2`, including `K` equal to the trajectory's current length.
At the trajectory `[(0,0), (1,0), (4,0)]` (3 points, total path length
4) with `K = 3`, the resampler short-circuits and returns the input
unchanged, so its interior point is `(1,0)` — but the equal arc-length
position `1 · total/(K-1) = 2` along the polyline is `(2,0)`. -/
theorem resample_claim_counterexample :
    2 ≤ ([((0 : ℝ), (0 : ℝ)), (1, 0), (4, 0)] : List Point).length
    ∧ 0 < pathLength [((0 : ℝ), (0 : ℝ)), (1, 0), (4, 0)]
    ∧ (resample_trajectory [((0 : ℝ), (0 : ℝ)), (1, 0), (4, 0)] 3).getD 1 (0, 0) = (1, 0)
    ∧ pointAtArc [((0 : ℝ), (0 : ℝ)), (1, 0), (4, 0)]
        ((1 : ℝ) * (pathLength [((0 : ℝ), (0 : ℝ)), (1, 0), (4, 0)] / ((3 : ℝ) - 1)))
        = (2, 0)
    ∧ ((1 : ℝ), (0 : ℝ)) ≠ ((2 : ℝ), (0 : ℝ)) := by
  have hd1 : ptDist ((0 : ℝ), (0 : ℝ)) (1, 0) = 1 := by
    unfold ptDist
    rw [show ((1 : ℝ) - 0) * ((1 : ℝ) - 0) + ((0 : ℝ) - 0) * ((0 : ℝ) - 0) = 1 by norm_num]
    exact Real.sqrt_one
  have hd2 : ptDist ((1 : ℝ), (0 : ℝ)) (4, 0) = 3 := by
    unfold ptDist
    rw [show ((4 : ℝ) - 1) * ((4 : ℝ) - 1) + ((0 : ℝ) - 0) * ((0 : ℝ) - 0) = 3 ^ 2 by norm_num]
    exact Real.sqrt_sq (by norm_num)
  have hPL : pathLength [((0 : ℝ), (0 : ℝ)), (1, 0), (4, 0)] = 4 := by
    simp only [pathLength]
    rw [hd1, hd2]
    norm_num
  refine ⟨by simp, by rw [hPL]; norm_num, ?_, ?_, by norm_num [Prod.ext_iff]⟩
  · rw [show resample_trajectory [((0 : ℝ), (0 : ℝ)), (1, 0), (4, 0)] 3
        = [((0 : ℝ), (0 : ℝ)), (1, 0), (4, 0)] by
      unfold resample_trajectory
      norm_num]
    rfl
  · rw [hPL]
    rw [show (1 : ℝ) * ((4 : ℝ) / ((3 : ℝ) - 1)) = 2 by norm_num]
    unfold pointAtArc
    rw [if_neg (by rw [hd1]; norm_num)]
    unfold pointAtArc
    rw [hd1, if_pos (by rw [hd2]; norm_num)]
    rw [hd2]
    norm_num

lemma foldl_min_le_init : ∀ (xs : List ℝ) (a : ℝ), xs.foldl min a ≤ a := by
  intro xs
  induction xs with
  | nil => intro a; simp
  | cons x xs ih =>
    intro a
    calc (x :: xs).foldl min a = xs.foldl min (min a x) := rfl
      _ ≤ min a x := ih _
      _ ≤ a := min_le_left _ _

lemma foldl_min_le_of_mem : ∀ (xs : List ℝ) (a x : ℝ), x ∈ xs → xs.foldl min a ≤ x := by
  intro xs
  induction xs with
  | nil => intro a x hx; simp at hx
  | cons y ys ih =>
    intro a x hx
    rcases List.mem_cons.mp hx with rfl | hx
    · calc (x :: ys).foldl min a = ys.foldl min (min a x) := rfl
        _ ≤ min a x := foldl_min_le_init _ _
        _ ≤ x := min_le_right _ _
    · exact ih (min a y) x hx

lemma foldl_min_eq_or_mem : ∀ (xs : List ℝ) (a : ℝ), xs.foldl min a = a ∨ xs.foldl min a ∈ xs := by
  intro xs
  induction xs with
  | nil => intro a; left; rfl
  | cons y ys ih =>
    intro a
    rcases ih (min a y) with h | h
    · rcases le_total a y with hay | hay
      · left
        calc (y :: ys).foldl min a = ys.foldl min (min a y) := rfl
          _ = min a y := h
          _ = a := min_eq_left hay
      · right
        have heq : (y :: ys).foldl min a = y :=
          calc (y :: ys).foldl min a = ys.foldl min (min a y) := rfl
            _ = min a y := h
            _ = y := min_eq_right hay
        rw [heq]
        exact List.mem_cons_self _ _
    · right
      exact List.mem_cons_of_mem _ h

lemma listMin_le_of_mem {l : List ℝ} {x : ℝ} (h : x ∈ l) : listMin l ≤ x := by
  cases l with
  | nil => simp at h
  | cons y ys =>
    rcases List.mem_cons.mp h with rfl | h
    · exact foldl_min_le_init _ _
    · exact foldl_min_le_of_mem _ _ _ h

lemma listMin_mem {l : List ℝ} (h : l ≠ []) : listMin l ∈ l := by
  cases l with
  | nil => exact absurd rfl h
  | cons y ys =>
    rcases foldl_min_eq_or_mem ys y with h' | h'
    · rw [listMin, h']; exact List.mem_cons_self _ _
    · exact List.mem_cons_of_mem _ h'

lemma foldl_max_init_le : ∀ (xs : List ℝ) (a : ℝ), a ≤ xs.foldl max a := by
  intro xs
  induction xs with
  | nil => intro a; simp
  | cons x xs ih =>
    intro a
    calc a ≤ max a x := le_max_left _ _
      _ ≤ xs.foldl max (max a x) := ih _
      _ = (x :: xs).foldl max a := rfl

lemma le_foldl_max_of_mem : ∀ (xs : List ℝ) (a x : ℝ), x ∈ xs → x ≤ xs.foldl max a := by
  intro xs
  induction xs with
  | nil => intro a x hx; simp at hx
  | cons y ys ih =>
    intro a x hx
    rcases List.mem_cons.mp hx with rfl | hx
    · calc x ≤ max a x := le_max_right _ _
        _ ≤ ys.foldl max (max a x) := foldl_max_init_le _ _
        _ = (x :: ys).foldl max a := rfl
    · exact ih (max a y) x hx

lemma foldl_max_eq_or_mem : ∀ (xs : List ℝ) (a : ℝ), xs.foldl max a = a ∨ xs.foldl max a ∈ xs := by
  intro xs
  induction xs with
  | nil => intro a; left; rfl
  | cons y ys ih =>
    intro a
    rcases ih (max a y) with h | h
    · rcases le_total a y with hay | hay
      · right
        have heq : (y :: ys).foldl max a = y :=
          calc (y :: ys).foldl max a = ys.foldl max (max a y) := rfl
            _ = max a y := h
            _ = y := max_eq_right hay
        rw [heq]
        exact List.mem_cons_self _ _
      · left
        calc (y :: ys).foldl max a = ys.foldl max (max a y) := rfl
          _ = max a y := h
          _ = a := max_eq_left hay
    · right
      exact List.mem_cons_of_mem _ h

lemma le_listMax_of_mem {l : List ℝ} {x : ℝ} (h : x ∈ l) : x ≤ listMax l := by
  cases l with
  | nil => simp at h
  | cons y ys =>
    rcases List.mem_cons.mp h with rfl | h
    · exact foldl_max_init_le _ _
    · exact le_foldl_max_of_mem _ _ _ h

lemma listMax_mem {l : List ℝ} (h : l ≠ []) : listMax l ∈ l := by
  cases l with
  | nil => exact absurd rfl h
  | cons y ys =>
    rcases foldl_max_eq_or_mem ys y with h' | h'
    · rw [listMax, h']; exact List.mem_cons_self _ _
    · exact List.mem_cons_of_mem _ h'

lemma listMin_lt_listMax_of_ne {l : List ℝ} {x y : ℝ}
    (hx : x ∈ l) (hy : y ∈ l) (hxy : x ≠ y) : listMin l < listMax l := by
  rcases lt_or_gt_of_ne hxy with h | h
  · exact lt_of_le_of_lt (listMin_le_of_mem hx) (lt_of_lt_of_le h (le_listMax_of_mem hy))
  · exact lt_of_le_of_lt (listMin_le_of_mem hy) (lt_of_lt_of_le h (le_listMax_of_mem hx))

/-- An increasing affine map commutes with the fold computing the list
minimum. -/
lemma foldl_min_affine (m w : ℝ) (hw : 0 < w) :
    ∀ (xs : List ℝ) (a : ℝ),
      (xs.map (fun t => (t - m) / w)).foldl min ((a - m) / w)
        = (xs.foldl min a - m) / w := by
  intro xs
  induction xs with
  | nil => intro a; rfl
  | cons x xs ih =>
    intro a
    have hmin : min ((a - m) / w) ((x - m) / w) = (min a x - m) / w := by
      rcases le_total a x with h | h
      · rw [min_eq_left h, min_eq_left]
        exact div_le_div_of_nonneg_right (by linarith) hw.le
      · rw [min_eq_right h, min_eq_right]
        exact div_le_div_of_nonneg_right (by linarith) hw.le
    calc ((x :: xs).map (fun t => (t - m) / w)).foldl min ((a - m) / w)
        = (xs.map (fun t => (t - m) / w)).foldl min (min ((a - m) / w) ((x - m) / w)) := rfl
      _ = (xs.map (fun t => (t - m) / w)).foldl min ((min a x - m) / w) := by rw [hmin]
      _ = (xs.foldl min (min a x) - m) / w := ih _
      _ = ((x :: xs).foldl min a - m) / w := rfl

/-- An increasing affine map commutes with the fold computing the list
maximum. -/
lemma foldl_max_affine (m w : ℝ) (hw : 0 < w) :
    ∀ (xs : List ℝ) (a : ℝ),
      (xs.map (fun t => (t - m) / w)).foldl max ((a - m) / w)
        = (xs.foldl max a - m) / w := by
  intro xs
  induction xs with
  | nil => intro a; rfl
  | cons x xs ih =>
    intro a
    have hmax : max ((a - m) / w) ((x - m) / w) = (max a x - m) / w := by
      rcases le_total a x with h | h
      · rw [max_eq_right h, max_eq_right]
        exact div_le_div_of_nonneg_right (by linarith) hw.le
      · rw [max_eq_left h, max_eq_left]
        exact div_le_div_of_nonneg_right (by linarith) hw.le
    calc ((x :: xs).map (fun t => (t - m) / w)).foldl max ((a - m) / w)
        = (xs.map (fun t => (t - m) / w)).foldl max (max ((a - m) / w) ((x - m) / w)) := rfl
      _ = (xs.map (fun t => (t - m) / w)).foldl max ((max a x - m) / w) := by rw [hmax]
      _ = (xs.foldl max (max a x) - m) / w := ih _
      _ = ((x :: xs).foldl max a - m) / w := rfl

lemma listMin_affine (m w : ℝ) (hw : 0 < w) (x : ℝ) (xs : List ℝ) :
    listMin ((x :: xs).map (fun t => (t - m) / w)) = (listMin (x :: xs) - m) / w := by
  show (xs.map (fun t => (t - m) / w)).foldl min ((x - m) / w) = (xs.foldl min x - m) / w
  exact foldl_min_affine m w hw xs x

lemma listMax_affine (m w : ℝ) (hw : 0 < w) (x : ℝ) (xs : List ℝ) :
    listMax ((x :: xs).map (fun t => (t - m) / w)) = (listMax (x :: xs) - m) / w := by
  show (xs.map (fun t => (t - m) / w)).foldl max ((x - m) / w) = (xs.foldl max x - m) / w
  exact foldl_max_affine m w hw xs x

lemma listMin_affine_of_ne (m w : ℝ) (hw : 0 < w) (l : List ℝ) (hl : l ≠ []) :
    listMin (l.map (fun t => (t - m) / w)) = (listMin l - m) / w := by
  cases l with
  | nil => exact absurd rfl hl
  | cons x xs => exact listMin_affine m w hw x xs

lemma listMax_affine_of_ne (m w : ℝ) (hw : 0 < w) (l : List ℝ) (hl : l ≠ []) :
    listMax (l.map (fun t => (t - m) / w)) = (listMax l - m) / w := by
  cases l with
  | nil => exact absurd rfl hl
  | cons x xs => exact listMax_affine m w hw x xs

/-- The normalizer in its non-degenerate branch, written as a map. -/
lemma normalize_eq_map (traj : List Point) (h : ¬ traj.length < 2) :
    normalize_trajectory traj
      = traj.map (fun p =>
          ((p.1 - listMin (traj.map Prod.fst)) /
            (if listMin (traj.map Prod.fst) < listMax (traj.map Prod.fst) then
              listMax (traj.map Prod.fst) - listMin (traj.map Prod.fst) else 1),
           (p.2 - listMin (traj.map Prod.snd)) /
            (if listMin (traj.map Prod.snd) < listMax (traj.map Prod.snd) then
              listMax (traj.map Prod.snd) - listMin (traj.map Prod.snd) else 1))) := by
  unfold normalize_trajectory
  rw [if_neg h]

/-- C2: the normalizer maps a trajectory of at least 2 points whose
coordinates are not all identical on an axis to one whose bounding box on
that axis is exactly `[0, 1]`; on an axis where all coordinates coincide
the divisor is 1, so coordinates pass through as `coordinate - min`; and
an input with fewer than 2 points is returned unchanged. -/
theorem normalize_bbox :
    (∀ traj : List Point, traj.length < 2 → normalize_trajectory traj = traj)
    ∧ (∀ traj : List Point, 2 ≤ traj.length →
        ((∃ p ∈ traj, ∃ q ∈ traj, p.1 ≠ q.1) →
          listMin ((normalize_trajectory traj).map Prod.fst) = 0
          ∧ listMax ((normalize_trajectory traj).map Prod.fst) = 1)
        ∧ ((∀ p ∈ traj, ∀ q ∈ traj, p.1 = q.1) →
          (normalize_trajectory traj).map Prod.fst
            = traj.map (fun p => p.1 - listMin (traj.map Prod.fst)))
        ∧ ((∃ p ∈ traj, ∃ q ∈ traj, p.2 ≠ q.2) →
          listMin ((normalize_trajectory traj).map Prod.snd) = 0
          ∧ listMax ((normalize_trajectory traj).map Prod.snd) = 1)
        ∧ ((∀ p ∈ traj, ∀ q ∈ traj, p.2 = q.2) →
          (normalize_trajectory traj).map Prod.snd
            = traj.map (fun p => p.2 - listMin (traj.map Prod.snd)))) := by
  constructor
  · intro traj h
    unfold normalize_trajectory
    rw [if_pos h]
  · intro traj hlen
    have hlen' : ¬ traj.length < 2 := by omega
    have hmap := normalize_eq_map traj hlen'
    obtain ⟨p0, rest, rfl⟩ : ∃ p0 rest, traj = p0 :: rest := by
      cases traj with
      | nil => simp at hlen
      | cons a t => exact ⟨a, t, rfl⟩
    refine ⟨?_, ?_, ?_, ?_⟩
    · rintro ⟨p, hp, q, hq, hpq⟩
      have hlt : listMin ((p0 :: rest).map Prod.fst) < listMax ((p0 :: rest).map Prod.fst) :=
        listMin_lt_listMax_of_ne (List.mem_map_of_mem Prod.fst hp)
          (List.mem_map_of_mem Prod.fst hq) hpq
      have hwpos : (0 : ℝ) <
          listMax ((p0 :: rest).map Prod.fst) - listMin ((p0 :: rest).map Prod.fst) := by
        linarith
      rw [hmap, List.map_map]
      have hcomp : (Prod.fst ∘ fun p : Point =>
          ((p.1 - listMin ((p0 :: rest).map Prod.fst)) /
            (if listMin ((p0 :: rest).map Prod.fst) < listMax ((p0 :: rest).map Prod.fst) then
              listMax ((p0 :: rest).map Prod.fst) - listMin ((p0 :: rest).map Prod.fst) else 1),
           (p.2 - listMin ((p0 :: rest).map Prod.snd)) /
            (if listMin ((p0 :: rest).map Prod.snd) < listMax ((p0 :: rest).map Prod.snd) then
              listMax ((p0 :: rest).map Prod.snd) - listMin ((p0 :: rest).map Prod.snd) else 1)))
          = (fun t => (t - listMin ((p0 :: rest).map Prod.fst)) /
              (listMax ((p0 :: rest).map Prod.fst) - listMin ((p0 :: rest).map Prod.fst)))
            ∘ Prod.fst := by
        funext p
        simp only [Function.comp_apply, if_pos hlt]
      rw [hcomp, ← List.map_map]
      rw [listMin_affine_of_ne _ _ hwpos _ (by simp), listMax_affine_of_ne _ _ hwpos _ (by simp)]
      constructor
      · simp
      · rw [div_self (ne_of_gt hwpos)]
    · intro hall
      have hmm : listMin ((p0 :: rest).map Prod.fst) = listMax ((p0 :: rest).map Prod.fst) := by
        have hne : ((p0 :: rest).map Prod.fst) ≠ [] := by simp
        obtain ⟨pmin, hpmin, hpmin'⟩ := List.mem_map.mp (listMin_mem hne)
        obtain ⟨pmax, hpmax, hpmax'⟩ := List.mem_map.mp (listMax_mem hne)
        rw [← hpmin', ← hpmax']
        exact hall pmin hpmin pmax hpmax
      rw [hmap, List.map_map]
      apply List.map_congr_left
      intro p _
      simp only [Function.comp_apply]
      rw [if_neg (by rw [hmm]; exact lt_irrefl _), div_one]
    · rintro ⟨p, hp, q, hq, hpq⟩
      have hlt : listMin ((p0 :: rest).map Prod.snd) < listMax ((p0 :: rest).map Prod.snd) :=
        listMin_lt_listMax_of_ne (List.mem_map_of_mem Prod.snd hp)
          (List.mem_map_of_mem Prod.snd hq) hpq
      have hwpos : (0 : ℝ) <
          listMax ((p0 :: rest).map Prod.snd) - listMin ((p0 :: rest).map Prod.snd) := by
        linarith
      rw [hmap, List.map_map]
      have hcomp : (Prod.snd ∘ fun p : Point =>
          ((p.1 - listMin ((p0 :: rest).map Prod.fst)) /
            (if listMin ((p0 :: rest).map Prod.fst) < listMax ((p0 :: rest).map Prod.fst) then
              listMax ((p0 :: rest).map Prod.fst) - listMin ((p0 :: rest).map Prod.fst) else 1),
           (p.2 - listMin ((p0 :: rest).map Prod.snd)) /
            (if listMin ((p0 :: rest).map Prod.snd) < listMax ((p0 :: rest).map Prod.snd) then
              listMax ((p0 :: rest).map Prod.snd) - listMin ((p0 :: rest).map Prod.snd) else 1)))
          = (fun t => (t - listMin ((p0 :: rest).map Prod.snd)) /
              (listMax ((p0 :: rest).map Prod.snd) - listMin ((p0 :: rest).map Prod.snd)))
            ∘ Prod.snd := by
        funext p
        simp only [Function.comp_apply, if_pos hlt]
      rw [hcomp, ← List.map_map]
      rw [listMin_affine_of_ne _ _ hwpos _ (by simp), listMax_affine_of_ne _ _ hwpos _ (by simp)]
      constructor
      · simp
      · rw [div_self (ne_of_gt hwpos)]
    · intro hall
      have hmm : listMin ((p0 :: rest).map Prod.snd) = listMax ((p0 :: rest).map Prod.snd) := by
        have hne : ((p0 :: rest).map Prod.snd) ≠ [] := by simp
        obtain ⟨pmin, hpmin, hpmin'⟩ := List.mem_map.mp (listMin_mem hne)
        obtain ⟨pmax, hpmax, hpmax'⟩ := List.mem_map.mp (listMax_mem hne)
        rw [← hpmin', ← hpmax']
        exact hall pmin hpmin pmax hpmax
      rw [hmap, List.map_map]
      apply List.map_congr_left
      intro p _
      simp only [Function.comp_apply]
      rw [if_neg (by rw [hmm]; exact lt_irrefl _), div_one]

theorem normalize_bbox_witness :
    normalize_trajectory [((3 : ℝ), (4 : ℝ))] = [((3 : ℝ), (4 : ℝ))]
    ∧ listMin ((normalize_trajectory [((0 : ℝ), (0 : ℝ)), (2, 1)]).map Prod.fst) = 0
    ∧ listMax ((normalize_trajectory [((0 : ℝ), (0 : ℝ)), (2, 1)]).map Prod.fst) = 1
    ∧ listMin ((normalize_trajectory [((0 : ℝ), (0 : ℝ)), (2, 1)]).map Prod.snd) = 0
    ∧ listMax ((normalize_trajectory [((0 : ℝ), (0 : ℝ)), (2, 1)]).map Prod.snd) = 1
    ∧ (normalize_trajectory [((0 : ℝ), (5 : ℝ)), (0, 7)]).map Prod.fst
        = ([((0 : ℝ), (5 : ℝ)), (0, 7)] : List Point).map
            (fun p => p.1 - listMin (([((0 : ℝ), (5 : ℝ)), (0, 7)] : List Point).map Prod.fst)) := by
  obtain ⟨h1, h2⟩ := normalize_bbox
  have hxA := (h2 [((0 : ℝ), (0 : ℝ)), (2, 1)] (by simp)).1
    ⟨(0, 0), by simp, (2, 1), by simp, by norm_num⟩
  have hyA := (h2 [((0 : ℝ), (0 : ℝ)), (2, 1)] (by simp)).2.2.1
    ⟨(0, 0), by simp, (2, 1), by simp, by norm_num⟩
  have hB := (h2 [((0 : ℝ), (5 : ℝ)), (0, 7)] (by simp)).2.1
    (by
      intro p hp q hq
      have hp' : p = ((0 : ℝ), (5 : ℝ)) ∨ p = ((0 : ℝ), (7 : ℝ)) := by simpa using hp
      have hq' : q = ((0 : ℝ), (5 : ℝ)) ∨ q = ((0 : ℝ), (7 : ℝ)) := by simpa using hq
      rcases hp' with rfl | rfl <;> rcases hq' with rfl | rfl <;> rfl)
  exact ⟨h1 _ (by simp), hxA.1, hxA.2, hyA.1, hyA.2, hB⟩

/-- The resampler's equal-length short-circuit (main.py lines 179-180),
as a reusable helper. -/
lemma resample_len_eq (traj : List Point) (K : ℕ) (h : traj.length = K) :
    resample_trajectory traj K = traj := by
  unfold resample_trajectory
  by_cases h1 : traj.length ≤ 1 ∨ K ≤ 1
  · rw [if_pos h1]
  · rw [if_neg h1, if_pos h]

/-- In the genuine resampling case the output has exactly the target
number of points. -/
lemma resample_length (traj : List Point) (K : ℕ)
    (h2 : 2 ≤ traj.length) (hK : 2 ≤ K) (htot : 0 < pathLength traj) :
    (resample_trajectory traj K).length = K := by
  by_cases hne : traj.length = K
  · rw [resample_len_eq traj K hne, hne]
  · rw [resample_eq traj K h2 hK hne htot]
    simp only [List.length_append, List.length_cons, List.length_map,
      List.length_range, List.length_nil, List.length_singleton]
    omega

/-- The source's index-driven distance accumulation agrees with a
point-wise zip whenever the two lists have equal length. -/
lemma sum_range_getD_eq_zipWith :
    ∀ (r1 r2 : List Point), r1.length = r2.length →
      ((List.range r1.length).map
        (fun i => ptDist (r2.getD i (0, 0)) (r1.getD i (0, 0)))).sum
        = (List.zipWith ptDist r1 r2).sum := by
  intro r1
  induction r1 with
  | nil => intro r2 _; simp
  | cons x xs ih =>
    intro r2 h
    cases r2 with
    | nil => simp at h
    | cons y ys =>
      have hlen : xs.length = ys.length := by simpa using h
      rw [show (x :: xs).length = xs.length + 1 from rfl, List.range_succ_eq_map]
      rw [List.map_cons, List.map_map, List.sum_cons]
      rw [List.zipWith_cons_cons, List.sum_cons]
      have hhead : ptDist ((y :: ys).getD 0 (0, 0)) ((x :: xs).getD 0 (0, 0))
          = ptDist x y := by
        rw [show ((y :: ys).getD 0 (0, 0)) = y from rfl,
          show ((x :: xs).getD 0 (0, 0)) = x from rfl]
        exact ptDist_comm y x
      have htail : (List.map
          ((fun i => ptDist ((y :: ys).getD i (0, 0)) ((x :: xs).getD i (0, 0))) ∘ Nat.succ)
          (List.range xs.length)).sum
          = (List.zipWith ptDist xs ys).sum := by
        rw [show (List.map
            ((fun i => ptDist ((y :: ys).getD i (0, 0)) ((x :: xs).getD i (0, 0))) ∘ Nat.succ)
            (List.range xs.length))
          = (List.map (fun i => ptDist (ys.getD i (0, 0)) (xs.getD i (0, 0)))
            (List.range xs.length)) from List.map_congr_left (fun i _ => rfl)]
        exact ih ys hlen
      rw [hhead, htail]

/-- C3 (amended): for trajectories of at least 2 points with positive
path length each, the similarity is computed by resampling both to
`min(50, max(len1, len2))` points, taking the mean Euclidean distance
between corresponding resampled points, and converting via
`max(0, 1 - meanDistance / 1.414)` — the divisor is the literal
`1.414`, a rational approximation of `sqrt 2`, not `sqrt 2` itself. -/
theorem calculate_similarity_formula (t1 t2 : List Point)
    (h1 : 2 ≤ t1.length) (h2 : 2 ≤ t2.length)
    (htot1 : 0 < pathLength t1) (htot2 : 0 < pathLength t2) :
    calculate_similarity t1 t2 = similaritySpec 1.414 t1 t2 := by
  have hK : 2 ≤ min 50 (max t1.length t2.length) := by omega
  have hl1 : (resample_trajectory t1 (min 50 (max t1.length t2.length))).length
      = min 50 (max t1.length t2.length) := resample_length _ _ h1 hK htot1
  have hl2 : (resample_trajectory t2 (min 50 (max t1.length t2.length))).length
      = min 50 (max t1.length t2.length) := resample_length _ _ h2 hK htot2
  have hne : ¬ (t1 = [] ∨ t2 = []) := by
    rintro (rfl | rfl) <;> simp at h1 h2
  simp only [calculate_similarity, similaritySpec, if_neg hne]
  rw [sum_range_getD_eq_zipWith _ _ (hl1.trans hl2.symm), hl1]

theorem calculate_similarity_formula_witness :
    2 ≤ ([((1 : ℝ), (1 : ℝ)), (2, 1)] : List Point).length
    ∧ 2 ≤ ([((1 : ℝ), (2 : ℝ)), (2, 2)] : List Point).length
    ∧ 0 < pathLength [((1 : ℝ), (1 : ℝ)), (2, 1)]
    ∧ 0 < pathLength [((1 : ℝ), (2 : ℝ)), (2, 2)]
    ∧ calculate_similarity [((1 : ℝ), (1 : ℝ)), (2, 1)] [((1 : ℝ), (2 : ℝ)), (2, 2)]
        = similaritySpec 1.414 [((1 : ℝ), (1 : ℝ)), (2, 1)] [((1 : ℝ), (2 : ℝ)), (2, 2)] := by
  have hda : ptDist ((1 : ℝ), (1 : ℝ)) (2, 1) = 1 := by
    unfold ptDist
    rw [show ((2 : ℝ) - 1) * ((2 : ℝ) - 1) + ((1 : ℝ) - 1) * ((1 : ℝ) - 1) = 1 by norm_num]
    exact Real.sqrt_one
  have hdb : ptDist ((1 : ℝ), (2 : ℝ)) (2, 2) = 1 := by
    unfold ptDist
    rw [show ((2 : ℝ) - 1) * ((2 : ℝ) - 1) + ((2 : ℝ) - 2) * ((2 : ℝ) - 2) = 1 by norm_num]
    exact Real.sqrt_one
  have htot1 : 0 < pathLength [((1 : ℝ), (1 : ℝ)), (2, 1)] := by
    simp only [pathLength]
    rw [hda]
    norm_num
  have htot2 : 0 < pathLength [((1 : ℝ), (2 : ℝ)), (2, 2)] := by
    simp only [pathLength]
    rw [hdb]
    norm_num
  exact ⟨by simp, by simp, htot1, htot2,
    calculate_similarity_formula _ _ (by simp) (by simp) htot1 htot2⟩

/-- Evaluation of the code's similarity on a pair of 2-point
trajectories: the target count is 2 and both resamplings short-circuit. -/
lemma calculate_similarity_pair (p1 q1 p2 q2 : Point) :
    calculate_similarity [p1, q1] [p2, q2]
      = max 0 (1 - (ptDist p2 p1 + ptDist q2 q1) / 2 / 1.414) := by
  have hne : ¬ (([p1, q1] : List Point) = [] ∨ ([p2, q2] : List Point) = []) := by simp
  simp only [calculate_similarity, if_neg hne]
  rw [show min 50 (max ([p1, q1] : List Point).length ([p2, q2] : List Point).length) = 2
    from by simp]
  rw [resample_len_eq [p1, q1] 2 rfl, resample_len_eq [p2, q2] 2 rfl]
  rw [show ([p1, q1] : List Point).length = 2 from rfl]
  rw [show List.range 2 = [0, 1] from rfl]
  simp only [List.map_cons, List.map_nil, List.sum_cons, List.sum_nil]
  rw [show (([p2, q2] : List Point).getD 0 (0, 0)) = p2 from rfl,
    show (([p1, q1] : List Point).getD 0 (0, 0)) = p1 from rfl,
    show (([p2, q2] : List Point).getD 1 (0, 0)) = q2 from rfl,
    show (([p1, q1] : List Point).getD 1 (0, 0)) = q1 from rfl]
  norm_num

/-- Evaluation of the spec's similarity formula on a pair of 2-point
trajectories. -/
lemma similaritySpec_pair (c : ℝ) (p1 q1 p2 q2 : Point) :
    similaritySpec c [p1, q1] [p2, q2]
      = max 0 (1 - (ptDist p1 p2 + ptDist q1 q2) / 2 / c) := by
  simp only [similaritySpec]
  rw [show min 50 (max ([p1, q1] : List Point).length ([p2, q2] : List Point).length) = 2
    from by simp]
  rw [resample_len_eq [p1, q1] 2 rfl, resample_len_eq [p2, q2] 2 rfl]
  simp only [List.zipWith_cons_cons, List.zipWith_nil_right, List.sum_cons, List.sum_nil]
  norm_num

/-- C3 counterexample: the claim asserts the similarity divisor is
exactly `sqrt 2`, but the source divides by the literal `1.414`; at two
parallel unit segments the two formulas give different values
(`1 - 1/1.414` versus `1 - 1/sqrt 2`). -/
theorem similarity_divisor_counterexample :
    calculate_similarity [((1 : ℝ), (1 : ℝ)), (2, 1)] [((1 : ℝ), (2 : ℝ)), (2, 2)]
      ≠ similaritySpec (Real.sqrt 2) [((1 : ℝ), (1 : ℝ)), (2, 1)] [((1 : ℝ), (2 : ℝ)), (2, 2)] := by
  have hda : ptDist ((1 : ℝ), (2 : ℝ)) (1, 1) = 1 := by
    unfold ptDist
    rw [show ((1 : ℝ) - 1) * ((1 : ℝ) - 1) + ((1 : ℝ) - 2) * ((1 : ℝ) - 2) = 1 by norm_num]
    exact Real.sqrt_one
  have hdb : ptDist ((2 : ℝ), (2 : ℝ)) (2, 1) = 1 := by
    unfold ptDist
    rw [show ((2 : ℝ) - 2) * ((2 : ℝ) - 2) + ((1 : ℝ) - 2) * ((1 : ℝ) - 2) = 1 by norm_num]
    exact Real.sqrt_one
  have hda' : ptDist ((1 : ℝ), (1 : ℝ)) (1, 2) = 1 := by
    unfold ptDist
    rw [show ((1 : ℝ) - 1) * ((1 : ℝ) - 1) + ((2 : ℝ) - 1) * ((2 : ℝ) - 1) = 1 by norm_num]
    exact Real.sqrt_one
  have hdb' : ptDist ((2 : ℝ), (1 : ℝ)) (2, 2) = 1 := by
    unfold ptDist
    rw [show ((2 : ℝ) - 2) * ((2 : ℝ) - 2) + ((2 : ℝ) - 1) * ((2 : ℝ) - 1) = 1 by norm_num]
    exact Real.sqrt_one
  rw [calculate_similarity_pair, similaritySpec_pair, hda, hdb, hda', hdb']
  have hs2 : Real.sqrt 2 * Real.sqrt 2 = 2 := Real.mul_self_sqrt (by norm_num)
  have hs1 : (1 : ℝ) ≤ Real.sqrt 2 := by
    have h := Real.sqrt_le_sqrt (show (1 : ℝ) ≤ 2 by norm_num)
    rwa [Real.sqrt_one] at h
  have hspos : (0 : ℝ) < Real.sqrt 2 := by linarith
  rw [show ((1 : ℝ) + 1) / 2 = 1 by norm_num]
  rw [max_eq_right (by norm_num : (0 : ℝ) ≤ 1 - 1 / 1.414),
    max_eq_right (by
      have : (1 : ℝ) / Real.sqrt 2 ≤ 1 := (div_le_one hspos).mpr hs1
      linarith)]
  intro heq
  have hinv : (1 : ℝ) / 1.414 = 1 / Real.sqrt 2 := by linarith
  have hsne : Real.sqrt 2 ≠ 0 := ne_of_gt hspos
  have h1414 : Real.sqrt 2 = 1.414 := by
    field_simp at hinv
    linarith
  rw [h1414] at hs2
  norm_num at hs2

lemma normalize_length (traj : List Point) :
    (normalize_trajectory traj).length = traj.length := by
  unfold normalize_trajectory
  split
  · rfl
  · simp

/-- When no remaining template strictly improves on the accumulated best
similarity while meeting the threshold, the loop keeps its accumulator. -/
lemma bestLoop_no_improve (inp : List Point) (θ : ℝ) :
    ∀ (ts : List Template) (best : Option MatchResult) (b : ℝ),
      (∀ t ∈ ts, ¬ (b < calculate_similarity inp t.trajectory
        ∧ θ ≤ calculate_similarity inp t.trajectory)) →
      bestLoop inp θ ts best b = best := by
  intro ts
  induction ts with
  | nil => intro best b _; rfl
  | cons t ts ih =>
    intro best b h
    have hcond := h t (List.mem_cons_self _ _)
    simp only [bestLoop, if_neg hcond]
    exact ih best b (fun t' ht' => h t' (List.mem_cons_of_mem _ ht'))

/-- The loop returns the first template attaining the (strictly positive)
maximal qualifying similarity: everything before it scores strictly
lower, everything after scores no higher. -/
lemma bestLoop_first_max (inp : List Point) (θ : ℝ) (t : Template) (l2 : List Template)
    (hθ : θ ≤ calculate_similarity inp t.trajectory)
    (hl2 : ∀ t' ∈ l2, calculate_similarity inp t'.trajectory
      ≤ calculate_similarity inp t.trajectory) :
    ∀ (l1 : List Template) (best : Option MatchResult) (b : ℝ),
      b < calculate_similarity inp t.trajectory →
      (∀ t' ∈ l1, calculate_similarity inp t'.trajectory
        < calculate_similarity inp t.trajectory) →
      bestLoop inp θ (l1 ++ t :: l2) best b
        = some ⟨t.template_id, t.name,
            calculate_similarity inp t.trajectory,
            calculate_similarity inp t.trajectory⟩ := by
  intro l1
  induction l1 with
  | nil =>
    intro best b hb _
    rw [List.nil_append]
    have hcond : b < calculate_similarity inp t.trajectory
        ∧ θ ≤ calculate_similarity inp t.trajectory := ⟨hb, hθ⟩
    simp only [bestLoop]
    rw [if_pos hcond]
    exact bestLoop_no_improve inp θ l2 _ _
      (fun t' ht' hc => absurd (hl2 t' ht') (not_le.mpr hc.1))
  | cons u l1 ih =>
    intro best b hb h1
    have hu : calculate_similarity inp u.trajectory
        < calculate_similarity inp t.trajectory := h1 u (List.mem_cons_self _ _)
    have h1' : ∀ t' ∈ l1, calculate_similarity inp t'.trajectory
        < calculate_similarity inp t.trajectory :=
      fun t' ht' => h1 t' (List.mem_cons_of_mem _ ht')
    rw [List.cons_append]
    by_cases hcond : b < calculate_similarity inp u.trajectory
        ∧ θ ≤ calculate_similarity inp u.trajectory
    · simp only [bestLoop]
      rw [if_pos hcond]
      exact ih _ _ hu h1'
    · simp only [bestLoop]
      rw [if_neg hcond]
      exact ih best b hb h1'

/-- C4 (amended): the matcher returns the template with the strictly
highest similarity among those meeting or exceeding the threshold,
provided that similarity is strictly positive (the accumulator starts at
0 and replacement requires strict improvement, so a similarity of
exactly 0 can never be selected); the position of that template in the
collection is arbitrary, and on ties the earlier template wins because
later templates may only equal, never match, the held best.

The hypotheses `_hinp` and `_htemplates` confine the statement to
well-formed collections: every template, like the normalized input, has
at least 2 points and strictly positive path length.  By
`resample_length` both resampled trajectories inside every similarity
computation then have exactly the common target count, so the source's
`resampled2[i]` indexing (modelled here by `getD`, main.py line 160) is
always in range and the embedding coincides with the program.  Outside
this region — e.g. a 1-point or zero-path-length template shorter than
the target count — Python raises IndexError out of `recognize_gesture`
instead of returning a best match, a path this model does not cover. -/
theorem recognize_best_match (inp : List Point) (θ : ℝ) (l1 l2 : List Template) (t : Template)
    (hlen : 2 ≤ inp.length)
    (_hinp : 0 < pathLength (normalize_trajectory inp))
    (_htemplates : ∀ t' ∈ l1 ++ t :: l2,
        2 ≤ t'.trajectory.length ∧ 0 < pathLength t'.trajectory)
    (hθ : θ ≤ calculate_similarity (normalize_trajectory inp) t.trajectory)
    (hpos : 0 < calculate_similarity (normalize_trajectory inp) t.trajectory)
    (hbefore : ∀ t' ∈ l1, calculate_similarity (normalize_trajectory inp) t'.trajectory
        < calculate_similarity (normalize_trajectory inp) t.trajectory)
    (hafter : ∀ t' ∈ l2, calculate_similarity (normalize_trajectory inp) t'.trajectory
        ≤ calculate_similarity (normalize_trajectory inp) t.trajectory) :
    recognize_gesture (l1 ++ t :: l2) inp θ
      = some ⟨t.template_id, t.name,
          calculate_similarity (normalize_trajectory inp) t.trajectory,
          calculate_similarity (normalize_trajectory inp) t.trajectory⟩ := by
  simp only [recognize_gesture]
  rw [if_neg (by omega), if_neg (by simp), if_neg (by rw [normalize_length]; omega)]
  exact bestLoop_first_max (normalize_trajectory inp) θ t l2 hθ hafter l1 none 0 hpos hbefore

lemma ptDist_self (p : Point) : ptDist p p = 0 := by
  unfold ptDist
  rw [show (p.1 - p.1) * (p.1 - p.1) + (p.2 - p.2) * (p.2 - p.2) = 0 by ring]
  exact Real.sqrt_zero

/-- Normalization of the concrete diagonal `[(1,1), (2,2)]`. -/
lemma normalize_diag_example :
    normalize_trajectory [((1 : ℝ), (1 : ℝ)), (2, 2)] = [((0 : ℝ), (0 : ℝ)), (1, 1)] := by
  have hminx : listMin (([((1 : ℝ), (1 : ℝ)), (2, 2)] : List Point).map Prod.fst) = 1 := by
    show List.foldl min (1 : ℝ) [2] = 1
    show min (1 : ℝ) 2 = 1
    norm_num
  have hmaxx : listMax (([((1 : ℝ), (1 : ℝ)), (2, 2)] : List Point).map Prod.fst) = 2 := by
    show List.foldl max (1 : ℝ) [2] = 2
    show max (1 : ℝ) 2 = 2
    norm_num
  have hminy : listMin (([((1 : ℝ), (1 : ℝ)), (2, 2)] : List Point).map Prod.snd) = 1 := by
    show List.foldl min (1 : ℝ) [2] = 1
    show min (1 : ℝ) 2 = 1
    norm_num
  have hmaxy : listMax (([((1 : ℝ), (1 : ℝ)), (2, 2)] : List Point).map Prod.snd) = 2 := by
    show List.foldl max (1 : ℝ) [2] = 2
    show max (1 : ℝ) 2 = 2
    norm_num
  simp only [normalize_trajectory]
  rw [if_neg (by simp)]
  rw [hminx, hmaxx, hminy, hmaxy]
  norm_num

/-- C4 counterexample: with threshold 0, input `[(1,1),(2,2)]`
(normalizing to `[(0,0),(1,1)]`) and the single template
`[(1,1),(0,0)]`, the template's similarity is exactly 0, which meets the
threshold and is trivially the strictly highest similarity in the
collection — yet the matcher returns no match, because replacing the
initial best requires similarity strictly above 0. -/
theorem recognize_claim_counterexample :
    0 ≤ calculate_similarity (normalize_trajectory [((1 : ℝ), (1 : ℝ)), (2, 2)])
        (reversedDiagTemplate).trajectory
    ∧ recognize_gesture [reversedDiagTemplate]
        [((1 : ℝ), (1 : ℝ)), (2, 2)] 0 = none := by
  have h1 : ptDist ((1 : ℝ), (1 : ℝ)) ((0 : ℝ), (0 : ℝ)) = Real.sqrt 2 := by
    unfold ptDist
    norm_num
  have h2 : ptDist ((0 : ℝ), (0 : ℝ)) ((1 : ℝ), (1 : ℝ)) = Real.sqrt 2 := by
    unfold ptDist
    norm_num
  have hsqrt_ge : (1.414 : ℝ) ≤ Real.sqrt 2 := by
    nlinarith [Real.mul_self_sqrt (show (0 : ℝ) ≤ 2 by norm_num), Real.sqrt_nonneg 2]
  have hsim : calculate_similarity [((0 : ℝ), (0 : ℝ)), (1, 1)] [((1 : ℝ), (1 : ℝ)), (0, 0)]
      = 0 := by
    rw [calculate_similarity_pair, h1, h2]
    rw [show (Real.sqrt 2 + Real.sqrt 2) / 2 = Real.sqrt 2 by ring]
    apply max_eq_left
    have hge1 : (1 : ℝ) ≤ Real.sqrt 2 / 1.414 := by
      rw [le_div_iff₀ (by norm_num : (0 : ℝ) < 1.414)]
      linarith
    linarith
  constructor
  · rw [normalize_diag_example]
    rw [show (reversedDiagTemplate).trajectory
        = [((1 : ℝ), (1 : ℝ)), (0, 0)] from rfl]
    rw [hsim]
  · simp only [recognize_gesture]
    rw [if_neg (by simp), if_neg (by simp)]
    rw [normalize_diag_example]
    rw [if_neg (by simp)]
    simp only [bestLoop]
    rw [show reversedDiagTemplate.trajectory
        = [((1 : ℝ), (1 : ℝ)), (0, 0)] from rfl]
    rw [hsim]
    rw [if_neg (by norm_num)]

theorem recognize_best_match_witness :
    2 ≤ ([((1 : ℝ), (1 : ℝ)), (2, 2)] : List Point).length
    ∧ 0 < pathLength (normalize_trajectory [((1 : ℝ), (1 : ℝ)), (2, 2)])
    ∧ (∀ t' ∈ ([diagTemplate] : List Template),
        2 ≤ t'.trajectory.length ∧ 0 < pathLength t'.trajectory)
    ∧ (0.5 : ℝ) ≤ calculate_similarity (normalize_trajectory [((1 : ℝ), (1 : ℝ)), (2, 2)])
        (diagTemplate).trajectory
    ∧ 0 < calculate_similarity (normalize_trajectory [((1 : ℝ), (1 : ℝ)), (2, 2)])
        (diagTemplate).trajectory
    ∧ recognize_gesture [diagTemplate]
        [((1 : ℝ), (1 : ℝ)), (2, 2)] 0.5
      = some ⟨"t1", "A",
          calculate_similarity (normalize_trajectory [((1 : ℝ), (1 : ℝ)), (2, 2)])
            (diagTemplate).trajectory,
          calculate_similarity (normalize_trajectory [((1 : ℝ), (1 : ℝ)), (2, 2)])
            (diagTemplate).trajectory⟩ := by
  have htraj : (diagTemplate).trajectory
      = [((0 : ℝ), (0 : ℝ)), (1, 1)] := rfl
  have hdiagpos : 0 < pathLength [((0 : ℝ), (0 : ℝ)), (1, 1)] := by
    simp only [pathLength]
    have hpt : ptDist ((0 : ℝ), (0 : ℝ)) (1, 1) = Real.sqrt 2 := by
      unfold ptDist
      norm_num
    rw [hpt]
    have := Real.sqrt_pos.mpr (show (0 : ℝ) < 2 by norm_num)
    linarith
  have hinp : 0 < pathLength (normalize_trajectory [((1 : ℝ), (1 : ℝ)), (2, 2)]) := by
    rw [normalize_diag_example]
    exact hdiagpos
  have htemplates : ∀ t' ∈ ([diagTemplate] : List Template),
      2 ≤ t'.trajectory.length ∧ 0 < pathLength t'.trajectory := by
    intro t' ht'
    have heq : t' = diagTemplate := by simpa using ht'
    subst heq
    rw [htraj]
    exact ⟨by simp, hdiagpos⟩
  have hsim : calculate_similarity (normalize_trajectory [((1 : ℝ), (1 : ℝ)), (2, 2)])
      (diagTemplate).trajectory = 1 := by
    rw [normalize_diag_example, htraj, calculate_similarity_pair,
      ptDist_self, ptDist_self]
    norm_num
  have hθ : (0.5 : ℝ) ≤ calculate_similarity (normalize_trajectory [((1 : ℝ), (1 : ℝ)), (2, 2)])
      (diagTemplate).trajectory := by
    rw [hsim]; norm_num
  have hpos : 0 < calculate_similarity (normalize_trajectory [((1 : ℝ), (1 : ℝ)), (2, 2)])
      (diagTemplate).trajectory := by
    rw [hsim]; norm_num
  refine ⟨by simp, hinp, htemplates, hθ, hpos, ?_⟩
  have h := recognize_best_match [((1 : ℝ), (1 : ℝ)), (2, 2)] 0.5 [] []
    (diagTemplate) (by simp) hinp htemplates hθ hpos
    (by intro t' ht'; simp at ht') (by intro t' ht'; simp at ht')
  simpa using h

/-- C6: a failing detector invocation (`model.infer` raising) is caught
inside `process_frame`: the pipeline returns no-detection for that
frame, and — the function being total into `Option Detection ×
CamState` — the failure never propagates to the caller. -/
theorem process_frame_detector_failure (s : CamState) (frame : Option Image)
    (confidence_threshold : ℝ) (e : Unit) (lat now : ℝ) :
    (process_frame s frame confidence_threshold (Except.error e) lat now).1 = none := by
  unfold process_frame
  split
  · rfl
  · cases frame with
    | none => rfl
    | some f => rfl

/-- C7: a frame submitted while tracking is disabled (likewise when the
model is unavailable or the image is absent) yields no-detection and
leaves the entire pipeline state — frame counter, detection counter,
latency window, FPS origin and current detection — unchanged: the guard
at main.py lines 263-264 returns before any mutation. -/
theorem process_frame_disabled_noop (s : CamState) (frame : Option Image)
    (confidence_threshold : ℝ) (io : Except Unit (List InferResult)) (lat now : ℝ)
    (h : s.tracking_enabled = false ∨ s.model_loaded = false ∨ frame = none) :
    process_frame s frame confidence_threshold io lat now = (none, s) := by
  unfold process_frame
  have hcond : (!s.tracking_enabled || !s.model_loaded || frame.isNone) = true := by
    rcases h with h | h | h <;> simp [h]
  rw [if_pos hcond]

theorem process_frame_disabled_noop_witness :
    (sampleCamState.tracking_enabled = false ∨ sampleCamState.model_loaded = false
      ∨ (none : Option Image) = none)
    ∧ process_frame sampleCamState none 0.5 (Except.ok []) 0 0 = (none, sampleCamState) :=
  ⟨Or.inl rfl, process_frame_disabled_noop _ _ _ _ _ _ (Or.inl rfl)⟩

/-- C5: every `frame` message on the frame-streaming connection produces
exactly two outbound messages, `frame_received` followed by a
`detection` message, whatever the tracking state, skip gate, payload
presence or decode outcome; in particular a non-decodable payload
(`decoded = none`) yields a `detection` message with a null detection.
The skip gate only chooses whether `process_frame` runs; it never
suppresses either response. -/
theorem frame_always_acknowledged (g : Globals) (cam : CamState) (sess : FrameSession)
    (env : FrameEnv) (data : Option String) :
    (∃ d : Option Detection,
      (frameStreamStep g cam sess env (FrameMsg.frame data)).1
        = [FrameOut.frame_received, FrameOut.detectionMsg d])
    ∧ (env.decoded = none →
      (frameStreamStep g cam sess env (FrameMsg.frame data)).1
        = [FrameOut.frame_received, FrameOut.detectionMsg none]) := by
  constructor
  · exact ⟨_, rfl⟩
  · intro h
    simp only [frameStreamStep]
    rw [h]
    split
    · rfl
    · rfl

theorem frame_always_acknowledged_witness :
    ((⟨none, Except.ok [], 0, 0⟩ : FrameEnv).decoded = none)
    ∧ (frameStreamStep ⟨0.75, 0.85⟩ sampleCamState initFrameSession
        ⟨none, Except.ok [], 0, 0⟩ (FrameMsg.frame (some ("not-base64")))).1
      = [FrameOut.frame_received, FrameOut.detectionMsg none] :=
  ⟨rfl, (frame_always_acknowledged ⟨0.75, 0.85⟩ sampleCamState initFrameSession
    ⟨none, Except.ok [], 0, 0⟩ (some ("not-base64"))).2 rfl⟩

/-- C8 counterexample: an unrecognized message kind on the
frame-streaming endpoint (`/ws/frames`) produces no outbound message at
all — the handler's final `else` only logs a warning (main.py lines
654-655) — contradicting the claim that either endpoint answers with an
error acknowledgment naming the kind. -/
theorem unknown_kind_counterexample :
    (frameStreamStep ⟨0.75, 0.85⟩ sampleCamState initFrameSession
      ⟨none, Except.ok [], 0, 0⟩ (FrameMsg.other ("bogus_kind"))).1 = [] := rfl

/-- C8 (amended): on the main `/ws` endpoint an unrecognized message
kind is answered with an explicit error acknowledgment naming the kind
and the shared state is untouched (the receive loop then continues); on
the frame-streaming `/ws/frames` endpoint an unrecognized kind produces
no outbound message at all (it is only logged), the state is likewise
untouched, and the connection also remains open. -/
theorem unknown_kind_behaviour (g : Globals) (cam : CamState) (sess : FrameSession)
    (env : FrameEnv) (t : String) :
    wsStep g cam (WsMsg.other t)
      = ([WsOut.statusError ("Unknown message type: " ++ t)], cam)
    ∧ (frameStreamStep g cam sess env (FrameMsg.other t)).1 = []
    ∧ (frameStreamStep g cam sess env (FrameMsg.other t)).2 = (g, cam, sess) :=
  ⟨rfl, rfl, rfl⟩

/-- C10: with the default frame-skip divisor 0.5, every positive counter
value satisfies `counter mod 0.5 = 0` (any integer is a whole multiple
of one half), so the `should_process` gate passes on every frame and the
skip policy — despite the `# Process every 3rd frame` comment — never
skips anything in the default configuration. -/
theorem default_divisor_never_skips (n : ℕ) (_h : 0 < n) :
    pyMod (n : ℚ) initFrameSession.process_every_nth_frame = 0 := by
  unfold pyMod initFrameSession
  rw [show ((n : ℚ) / (1 / 2)) = ((2 * n : ℤ) : ℚ) by push_cast; ring]
  rw [Int.floor_intCast]
  push_cast
  ring

theorem default_divisor_never_skips_witness :
    0 < 3 ∧ pyMod (3 : ℚ) initFrameSession.process_every_nth_frame = 0 :=
  ⟨by norm_num, default_divisor_never_skips 3 (by norm_num)⟩

end

end AirCut
